import Mathlib

/-!
The gateway UDP packet codec (`pkg/gatewayserver/udp/packet.go`).

A shallow embedding of the packet type table, `BuildAck`, `UnmarshalBinary`
and `MarshalBinary`, followed by the properties of the codec.

Conventions of the embedding:
* a Go `byte` is a `Fin 256`, a slice `[]byte` is a `List Byte`, an array
  `[n]byte` is a list of length `n`;
* a pointer field is an `Option` (`nil` is `none`);
* a method with a pointer receiver that mutates it takes the receiver and
  returns its final value next to the error;
* `error` results are `Option`s of an error type (`nil` is `none`).
-/

namespace udp

/-! ## Go primitives -/

/-- A Go `byte` (`uint8`). -/
abbrev Byte := Fin 256

/-- A Go array `[n]byte`. -/
abbrev ByteArr (n : Nat) := { l : List Byte // l.length = n }

/-- The zero value of `[n]byte`. -/
def ByteArr.zero (n : Nat) : ByteArr n := ⟨List.replicate n 0, List.length_replicate n 0⟩

/-- The Go expression `make([]byte, n)`. -/
def make (n : Nat) : List Byte := List.replicate n 0

/-- The Go slice expression `b[lo:hi]`. -/
def slice (b : List Byte) (lo hi : Nat) : List Byte := (b.take hi).drop lo

/-- The Go builtin `copy(dst, src)`: the contents of `dst` afterwards. It copies
`min(len(dst), len(src))` elements and leaves the rest of `dst` alone. -/
def copy (dst src : List Byte) : List Byte :=
  src.take dst.length ++ dst.drop src.length

/-- The Go statement `copy(b[lo:hi], src)`: the contents of `b` afterwards. -/
def copyAt (b : List Byte) (lo hi : Nat) (src : List Byte) : List Byte :=
  b.take lo ++ copy (slice b lo hi) src ++ b.drop hi

/-- The Go statement `copy(a[:], src)` on an array `a`: the array afterwards. -/
def ByteArr.copyFrom {n : Nat} (a : ByteArr n) (src : List Byte) : ByteArr n :=
  ⟨copy a.val src, by
    have h := a.property
    simp only [copy, List.length_append, List.length_take, List.length_drop]
    omega⟩

/-! ## Protocol versions and packet types -/

/-- ProtocolVersion of the forwarder (`uint8`). -/
abbrev ProtocolVersion := Byte

def Version1 : ProtocolVersion := 0x01
def Version2 : ProtocolVersion := 0x02

/-- PacketType of the packet (`uint8`). -/
abbrev PacketType := Byte

def PushData : PacketType := 0
def PushAck : PacketType := 1
def PullData : PacketType := 2
def PullResp : PacketType := 3
def PullAck : PacketType := 4
def TxAck : PacketType := 5

/-- HasGatewayEUI returns true iff a packet of this type has a GatewayEUI field. -/
def PacketType.HasGatewayEUI (p : PacketType) : Bool :=
  if p = PushData ∨ p = PullData ∨ p = TxAck then true else false

/-- HasData returns true iff a packet of this type has a Data field. -/
def PacketType.HasData (p : PacketType) : Bool :=
  if p = PushData ∨ p = PullResp ∨ p = TxAck then true else false

/-! ## Collaborators outside `packet.go` -/

/-- The 8-byte `types.EUI64`. `MarshalBinary` slices it as `p.GatewayEUI[:]`. -/
abbrev EUI64 := ByteArr 8

/-- The error of the gateway identity sub-decode. -/
inductive EUIError where
  | InvalidLength
  deriving DecidableEq

/-- Modelled from the spec: `types.EUI64.UnmarshalBinary`, of `pkg/types`, which is
not among the sources. The spec calls the identity an "8-byte extended unique
identifier", stored in "raw byte order", decoded as "the 8 bytes" of the datagram,
by a sub-decode that can fail: the identity is the 8 bytes given, and any other
length is an error that leaves the receiver alone. -/
def EUI64.UnmarshalBinary (eui : EUI64) (data : List Byte) : EUI64 × Option EUIError :=
  if h : data.length = 8 then (⟨data, h⟩, none) else (eui, some EUIError.InvalidLength)

/-- An error value of the standard library package `encoding/json`, by its message. -/
structure JSONError where
  msg : String
  deriving DecidableEq

/-- The standard library package `encoding/json` at the payload type `Data` (declared
in a file that is not among the sources), taken as a parameter: `zero` is the
value `new(Data)` points to, `Marshal` is `json.Marshal` (bytes and error) and
`Unmarshal` is `json.Unmarshal` into a given value (final value and error). -/
structure JSON (D : Type) where
  zero : D
  Marshal : D → List Byte × Option JSONError
  Unmarshal : List Byte → D → D × Option JSONError

/-- The errors `UnmarshalBinary` returns: `io.EOF`, the constructors `errors.New`
and `errors.NewWithCause` of `pkg/errors`, and an error of `json.Unmarshal`
returned as it is. -/
inductive Error where
  | EOF
  | New (msg : String)
  | NewWithCause (cause : EUIError) (msg : String)
  | JSON (e : JSONError)
  deriving DecidableEq

/-! ## Packet -/

/-- Packet struct. `D` is the payload type `Data`, `A` is `net.UDPAddr` and `C`
is `Conn`. -/
structure Packet (D A C : Type) where
  ProtocolVersion : udp.ProtocolVersion
  Token : ByteArr 2
  PacketType : udp.PacketType
  GatewayEUI : Option EUI64
  Data : Option D
  GatewayAddr : Option A
  GatewayConn : Option C
  deriving DecidableEq

/-- The zero value of `Packet`. -/
def Packet.zero {D A C : Type} : Packet D A C :=
  { ProtocolVersion := 0, Token := ByteArr.zero 2, PacketType := 0,
    GatewayEUI := none, Data := none, GatewayAddr := none, GatewayConn := none }

/-- BuildAck builds the corresponding Ack back to the gateway. If the received
packet does not require an Ack, the function returns nil without an error. -/
def Packet.BuildAck {D A C : Type} (p : Packet D A C) :
    Option (Packet D A C) × Option Error :=
  let ack : Packet D A C :=
    { Packet.zero with ProtocolVersion := p.ProtocolVersion, Token := p.Token }
  if p.PacketType = PushData then
    (some { ack with PacketType := PushAck }, none)
  else if p.PacketType = PullData then
    (some { ack with PacketType := PullAck }, none)
  else
    (none, none)

/-- UnmarshalBinary implements the encoding.BinaryUnmarshaler: the final value of
the receiver and the error. -/
def Packet.UnmarshalBinary {D A C : Type} (J : JSON D) (p : Packet D A C)
    (b : List Byte) : Packet D A C × Option Error :=
  if h : b.length < 4 then
    (p, some Error.EOF)
  else
    let p := { p with ProtocolVersion := b[0] }
    let p := { p with Token := p.Token.copyFrom (slice b 1 3) }
    let p := { p with PacketType := b[3] }
    let i := 4
    -- the `HasGatewayEUI` block: the packet, the position and the error after it
    let r : (Packet D A C × Nat) × Option Error :=
      if PacketType.HasGatewayEUI p.PacketType then
        if b.length < i + 8 then
          ((p, i), some (Error.New "Packet is not long enough to contain the gateway EUI"))
        else
          let u := EUI64.UnmarshalBinary (ByteArr.zero 8) (slice b i (i + 8))
          let p := { p with GatewayEUI := some u.1 }
          match u.2 with
          | some e => ((p, i), some (Error.NewWithCause e "failed to unmarshal gateway EUI"))
          | none => ((p, i + 8), none)
      else
        ((p, i), none)
    match r with
    | ((p, _), some e) => (p, some e)
    | ((p, i), none) =>
      if PacketType.HasData p.PacketType then
        let u := J.Unmarshal (b.drop i) J.zero
        let p := { p with Data := some u.1 }
        match u.2 with
        | some e => (p, some (Error.JSON e))
        | none => (p, none)
      else
        (p, none)

/-- MarshalBinary implements the encoding.BinaryMarshaler: the bytes and the error. -/
def Packet.MarshalBinary {D A C : Type} (J : JSON D) (p : Packet D A C) :
    List Byte × Option Error :=
  let b := make 4
  let b := b.set 0 p.ProtocolVersion
  let b := copyAt b 1 3 p.Token.val
  let b := b.set 3 p.PacketType
  let b :=
    match PacketType.HasGatewayEUI p.PacketType, p.GatewayEUI with
    | true, some eui => b ++ eui.val
    | _, _ => b
  let b :=
    match PacketType.HasData p.PacketType, p.Data with
    | true, some d => b ++ (J.Marshal d).1
    | _, _ => b
  (b, none)

/-! ## A concrete payload codec, for closed instances -/

/-- A payload codec on raw bytes: the payload is its own encoding. -/
def rawJSON : JSON (List Byte) :=
  { zero := [], Marshal := fun d => (d, none), Unmarshal := fun l _ => (l, none) }

/-- A PushData packet of protocol version 2 with token AB CD, an identity and the
two-byte payload text of an empty JSON object. -/
def samplePushData : Packet (List Byte) Unit Unit :=
  { ProtocolVersion := 2, Token := ⟨[0xAB, 0xCD], rfl⟩, PacketType := PushData,
    GatewayEUI := some ⟨[1, 2, 3, 4, 5, 6, 7, 8], rfl⟩, Data := some [0x7B, 0x7D],
    GatewayAddr := none, GatewayConn := none }

/-- The acknowledgment of `samplePushData`. -/
def sampleAck : Packet (List Byte) Unit Unit :=
  { ProtocolVersion := 2, Token := ⟨[0xAB, 0xCD], rfl⟩, PacketType := PushAck,
    GatewayEUI := none, Data := none, GatewayAddr := none, GatewayConn := none }

/-- A PullData packet of protocol version 2 with token AB CD and no identity. -/
def sampleBarePullData : Packet (List Byte) Unit Unit :=
  { ProtocolVersion := 2, Token := ⟨[0xAB, 0xCD], rfl⟩, PacketType := PullData,
    GatewayEUI := none, Data := none, GatewayAddr := none, GatewayConn := none }

/-- The PullData packet of protocol version 2 with token AB CD and identity 01 .. 08. -/
def samplePullData : Packet (List Byte) Unit Unit :=
  { ProtocolVersion := 2, Token := ⟨[0xAB, 0xCD], rfl⟩, PacketType := PullData,
    GatewayEUI := some ⟨[1, 2, 3, 4, 5, 6, 7, 8], rfl⟩, Data := none,
    GatewayAddr := none, GatewayConn := none }

/-- The datagram of `samplePullData`: 02, AB CD, 02 and the 8 identity bytes. -/
def samplePullDataBytes : List Byte := [0x02, 0xAB, 0xCD, 0x02, 1, 2, 3, 4, 5, 6, 7, 8]

/-! ## Unfolding the codec -/

/-- The receiver after the 4-byte header has been read. -/
def Packet.withHeader {D A C : Type} (p : Packet D A C) (v t0 t1 ty : Byte) : Packet D A C :=
  { p with ProtocolVersion := v, Token := ⟨[t0, t1], rfl⟩, PacketType := ty }

/-- The payload block of `UnmarshalBinary`, run on the text `js`. -/
def Packet.withPayload {D A C : Type} (J : JSON D) (p : Packet D A C) (js : List Byte) :
    Packet D A C × Option Error :=
  if PacketType.HasData p.PacketType then
    ({ p with Data := some (J.Unmarshal js J.zero).1 }, (J.Unmarshal js J.zero).2.map Error.JSON)
  else (p, none)

theorem take_length_of_le (rest : List Byte) (h : ¬ rest.length < 8) :
    (rest.take 8).length = 8 := by
  simp only [List.length_take]; omega

theorem unmarshal_cons {D A C : Type} (J : JSON D) (p : Packet D A C)
    (v t0 t1 ty : Byte) (rest : List Byte) :
    Packet.UnmarshalBinary J p (v :: t0 :: t1 :: ty :: rest) =
      if PacketType.HasGatewayEUI ty then
        if h : rest.length < 8 then
          (p.withHeader v t0 t1 ty,
            some (Error.New "Packet is not long enough to contain the gateway EUI"))
        else
          Packet.withPayload J
            { p.withHeader v t0 t1 ty with
              GatewayEUI := some ⟨rest.take 8, take_length_of_le rest h⟩ }
            (rest.drop 8)
      else
        Packet.withPayload J (p.withHeader v t0 t1 ty) rest := by
  obtain ⟨pv, ⟨tok, htok⟩, pt, eui, d, a, c⟩ := p
  match tok, htok with
  | [a0, a1], _ =>
    have h4 : ¬ (rest.length + 1 + 1 + 1 + 1 < 4) := by omega
    simp only [Packet.UnmarshalBinary, ByteArr.copyFrom, copy, slice, Packet.withHeader,
      Packet.withPayload,
      List.length_cons, h4, dite_false, EUI64.UnmarshalBinary]
    by_cases hg : PacketType.HasGatewayEUI ty = true
    · by_cases hl : rest.length < 8
      · have hl2 : rest.length + 1 + 1 + 1 + 1 < 4 + 8 := by omega
        simp [hg, hl, hl2]
      · have hl2 : ¬ rest.length + 1 + 1 + 1 + 1 < 4 + 8 := by omega
        have h8 : (List.take 8 rest).length = 8 := take_length_of_le rest hl
        by_cases hd : PacketType.HasData ty = true
        · cases hu : (J.Unmarshal (List.drop 8 rest) J.zero).2 <;>
            simp [hg, hl, hl2, hd, hu, h8]
        · simp [hg, hl, hl2, hd, h8]
    · by_cases hd : PacketType.HasData ty = true
      · cases hu : (J.Unmarshal rest J.zero).2 <;> simp [hg, hd, hu]
      · simp [hg, hd]

theorem exists_cons4 (b : List Byte) (h : 4 ≤ b.length) :
    ∃ v t0 t1 ty rest, b = v :: t0 :: t1 :: ty :: rest := by
  match b, h with
  | v :: t0 :: t1 :: ty :: rest, _ => exact ⟨v, t0, t1, ty, rest, rfl⟩

theorem header_eq {D A C : Type} (p : Packet D A C) :
    (copyAt ((make 4).set 0 p.ProtocolVersion) 1 3 p.Token.val).set 3 p.PacketType
      = p.ProtocolVersion :: p.Token.val ++ [p.PacketType] := by
  obtain ⟨pv, ⟨tok, htok⟩, pt, eui, d, a, c⟩ := p
  match tok, htok with
  | [a0, a1], _ => rfl

theorem marshal_eq {D A C : Type} (J : JSON D) (p : Packet D A C) :
    Packet.MarshalBinary J p =
      ((p.ProtocolVersion :: p.Token.val ++ [p.PacketType])
        ++ (if PacketType.HasGatewayEUI p.PacketType = true
            then (p.GatewayEUI.map Subtype.val).getD [] else [])
        ++ (if PacketType.HasData p.PacketType = true
            then (p.Data.map fun d => (J.Marshal d).1).getD [] else []), none) := by
  have hh := header_eq p
  simp only [Packet.MarshalBinary, hh]
  cases hg : PacketType.HasGatewayEUI p.PacketType <;> cases he : p.GatewayEUI <;>
    cases hd : PacketType.HasData p.PacketType <;> cases hp : p.Data <;> simp

theorem exists_cons12 (b : List Byte) (h : 12 ≤ b.length) :
    ∃ v t0 t1 ty e0 e1 e2 e3 e4 e5 e6 e7 rest,
      b = v :: t0 :: t1 :: ty :: e0 :: e1 :: e2 :: e3 :: e4 :: e5 :: e6 :: e7 :: rest := by
  match b, h with
  | v :: t0 :: t1 :: ty :: e0 :: e1 :: e2 :: e3 :: e4 :: e5 :: e6 :: e7 :: rest, _ =>
    exact ⟨v, t0, t1, ty, e0, e1, e2, e3, e4, e5, e6, e7, rest, rfl⟩

theorem hasData_of_payloadless :
    ∀ ty : Byte, ty = PushAck ∨ ty = PullData ∨ ty = PullAck ∨ 5 < ty.val →
      PacketType.HasData ty = false := by
  intro ty ht
  simp only [PacketType.HasData, PushData, PullResp, TxAck, PushAck, PullData, PullAck,
    Fin.ext_iff] at ht ⊢
  have h5 : ((5 : Fin 256) : Nat) = 5 := rfl
  have h3 : ((3 : Fin 256) : Nat) = 3 := rfl
  have h4 : ((4 : Fin 256) : Nat) = 4 := rfl
  have h : ¬ (ty.val = ((0 : Fin 256) : Nat) ∨ ty.val = ((3 : Fin 256) : Nat)
      ∨ ty.val = ((5 : Fin 256) : Nat)) := by
    simp only [h5, h3, h4, Fin.val_zero, Fin.val_one, Fin.val_two] at ht ⊢
    omega
  simp only [h, if_false]

theorem hasGatewayEUI_of_payloadless :
    ∀ ty : Byte, ty = PushAck ∨ ty = PullData ∨ ty = PullAck ∨ 5 < ty.val → ty ≠ PullData →
      PacketType.HasGatewayEUI ty = false := by
  intro ty ht h2
  simp only [PacketType.HasGatewayEUI, PushData, TxAck, PushAck, PullData, PullAck,
    Fin.ext_iff, ne_eq] at ht h2 ⊢
  have h5 : ((5 : Fin 256) : Nat) = 5 := rfl
  have h4 : ((4 : Fin 256) : Nat) = 4 := rfl
  have h : ¬ (ty.val = ((0 : Fin 256) : Nat) ∨ ty.val = ((2 : Fin 256) : Nat)
      ∨ ty.val = ((5 : Fin 256) : Nat)) := by
    simp only [h5, h4, Fin.val_zero, Fin.val_one, Fin.val_two] at ht h2 ⊢
    omega
  simp only [h, if_false]

/-! ## The packet type table -/

/-- C4: with the wire values PushData=0, PushAck=1, PullData=2, PullResp=3, PullAck=4
and TxAck=5, for every packet type byte `t`, `HasGatewayEUI` is true exactly when `t`
is PushData, PullData or TxAck (the bytes 0, 2, 5), and `HasData` is true exactly when
`t` is PushData, PullResp or TxAck (the bytes 0, 3, 5). -/
theorem packet_type_table :
    (PushData.val = 0 ∧ PushAck.val = 1 ∧ PullData.val = 2 ∧ PullResp.val = 3 ∧
      PullAck.val = 4 ∧ TxAck.val = 5) ∧
    ∀ t : PacketType,
      ((PacketType.HasGatewayEUI t = true ↔ t = PushData ∨ t = PullData ∨ t = TxAck) ∧
        (PacketType.HasGatewayEUI t = true ↔ t.val = 0 ∨ t.val = 2 ∨ t.val = 5)) ∧
      ((PacketType.HasData t = true ↔ t = PushData ∨ t = PullResp ∨ t = TxAck) ∧
        (PacketType.HasData t = true ↔ t.val = 0 ∨ t.val = 3 ∨ t.val = 5)) := by
  refine ⟨by decide, ?_⟩
  intro t
  have h5 : ((5 : Fin 256) : Nat) = 5 := rfl
  have h3 : ((3 : Fin 256) : Nat) = 3 := rfl
  simp only [PacketType.HasGatewayEUI, PacketType.HasData, PushData, PullData, TxAck, PullResp,
    Fin.ext_iff]
  refine ⟨⟨?_, ?_⟩, ⟨?_, ?_⟩⟩ <;> simp [h5, h3]

/-! ## BuildAck -/

/-- C2: for every packet `p`, `BuildAck` returns no error; its result is non-nil exactly
when the type of `p` is PushData or PullData, and then it carries the protocol version and
token of `p`, the type PushAck (for PushData) or PullAck (for PullData), no GatewayEUI
and no Data; for PushAck, PullResp, PullAck, TxAck and every byte above 5 it is nil. -/
theorem BuildAck_spec {D A C : Type} (p : Packet D A C) :
    p.BuildAck.2 = none ∧
    (p.BuildAck.1 ≠ none ↔ p.PacketType = PushData ∨ p.PacketType = PullData) ∧
    (∀ ack, p.BuildAck.1 = some ack →
      ack.ProtocolVersion = p.ProtocolVersion ∧ ack.Token = p.Token ∧
      (p.PacketType = PushData → ack.PacketType = PushAck) ∧
      (p.PacketType = PullData → ack.PacketType = PullAck) ∧
      ack.GatewayEUI = none ∧ ack.Data = none) ∧
    (p.PacketType = PushAck ∨ p.PacketType = PullResp ∨ p.PacketType = PullAck ∨
      p.PacketType = TxAck ∨ 5 < p.PacketType.val → p.BuildAck.1 = none) := by
  obtain ⟨pv, tok, pt, eui, d, a, c⟩ := p
  simp only [Packet.BuildAck, Packet.zero]
  by_cases h0 : pt = PushData
  · subst h0
    refine ⟨by simp, by simp, ?_, fun h => absurd h (by decide)⟩
    intro ack hack
    simp only [if_true, Option.some.injEq] at hack
    subst hack
    refine ⟨rfl, rfl, fun _ => rfl, fun h => absurd h (by decide), rfl, rfl⟩
  · by_cases h2 : pt = PullData
    · subst h2
      refine ⟨by simp [h0], by simp [h0], ?_, fun h => absurd h (by decide)⟩
      intro ack hack
      simp only [if_true, Option.some.injEq] at hack
      have hne : ¬ (PullData = PushData) := by decide
      simp only [hne, if_false, Option.some.injEq] at hack
      subst hack
      refine ⟨rfl, rfl, fun h => absurd h (by decide), fun _ => rfl, rfl, rfl⟩
    · simp [h0, h2]

/-- C2, at the PushData packet of version 2 and token AB CD, which carries an identity
and a payload: the acknowledgment is the bare PushAck with that version and token. -/
theorem BuildAck_spec_witness :
    (Packet.BuildAck samplePushData).1 = some sampleAck ∧
    sampleAck.ProtocolVersion = samplePushData.ProtocolVersion ∧
    sampleAck.Token = samplePushData.Token ∧
    (samplePushData.PacketType = PushData → sampleAck.PacketType = PushAck) ∧
    (samplePushData.PacketType = PullData → sampleAck.PacketType = PullAck) ∧
    sampleAck.GatewayEUI = none ∧ sampleAck.Data = none :=
  ⟨by decide, (BuildAck_spec samplePushData).2.2.1 sampleAck (by decide)⟩

/-! ## MarshalBinary -/

/-- C7: for every packet `p`, `MarshalBinary` returns no error and exactly the 4-byte
header (version, the two token bytes, type), then the 8 identity bytes if and only if the
type has an identity and `p` carries one, then the JSON text of the payload if and only
if the type has a payload and `p` carries one; in particular a packet whose type has an
identity but which carries none is encoded, without error, as header and payload only. -/
theorem MarshalBinary_spec {D A C : Type} (J : JSON D) (p : Packet D A C) :
    (p.MarshalBinary J).2 = none ∧
    (p.MarshalBinary J).1 =
      (p.ProtocolVersion :: p.Token.val ++ [p.PacketType])
        ++ (if PacketType.HasGatewayEUI p.PacketType = true
            then (p.GatewayEUI.map Subtype.val).getD [] else [])
        ++ (if PacketType.HasData p.PacketType = true
            then (p.Data.map fun d => (J.Marshal d).1).getD [] else []) ∧
    (p.ProtocolVersion :: p.Token.val ++ [p.PacketType]).length = 4 ∧
    (∀ eui, p.GatewayEUI = some eui → eui.val.length = 8) ∧
    (PacketType.HasGatewayEUI p.PacketType = true → p.GatewayEUI = none →
      (p.MarshalBinary J).2 = none ∧
      (p.MarshalBinary J).1 =
        (p.ProtocolVersion :: p.Token.val ++ [p.PacketType])
          ++ (if PacketType.HasData p.PacketType = true
              then (p.Data.map fun d => (J.Marshal d).1).getD [] else [])) := by
  rw [marshal_eq]
  refine ⟨rfl, rfl, ?_, fun eui _ => eui.property, ?_⟩
  · simp [p.Token.property]
  · intro hg he
    simp [hg, he]

/-- C7, at the PullData packet of version 2 and token AB CD that carries no identity:
the encoding is the bare header. -/
theorem MarshalBinary_spec_witness :
    (Packet.MarshalBinary rawJSON sampleBarePullData).2 = none ∧
    (Packet.MarshalBinary rawJSON sampleBarePullData).1 =
      (sampleBarePullData.ProtocolVersion :: sampleBarePullData.Token.val
          ++ [sampleBarePullData.PacketType])
        ++ (if PacketType.HasData sampleBarePullData.PacketType = true
            then (sampleBarePullData.Data.map fun d => (rawJSON.Marshal d).1).getD [] else []) :=
  (MarshalBinary_spec rawJSON sampleBarePullData).2.2.2.2 (by decide) (by decide)

/-! ## UnmarshalBinary: the header -/

/-- C3: on every buffer of fewer than 4 bytes, whatever its content (and whatever the
receiver), `UnmarshalBinary` fails with `io.EOF`, and leaves the receiver as it was. -/
theorem UnmarshalBinary_short {D A C : Type} (J : JSON D) (p : Packet D A C) (b : List Byte)
    (h : b.length < 4) :
    Packet.UnmarshalBinary J p b = (p, some Error.EOF) := by
  simp [Packet.UnmarshalBinary, h]

/-- C3, at the 3-byte buffer 02 AB CD. -/
theorem UnmarshalBinary_short_witness :
    Packet.UnmarshalBinary rawJSON samplePushData [2, 0xAB, 0xCD]
      = (samplePushData, some Error.EOF) :=
  UnmarshalBinary_short rawJSON samplePushData [2, 0xAB, 0xCD] (by decide)

/-- C8: on every buffer of at least 4 and fewer than 12 bytes whose type byte is PushData,
PullData or TxAck, `UnmarshalBinary` fails with the error made by `errors.New` from the
text "Packet is not long enough to contain the gateway EUI", which is not `io.EOF`. -/
theorem UnmarshalBinary_short_identity {D A C : Type} (J : JSON D) (p : Packet D A C)
    (b : List Byte) (h4 : 4 ≤ b.length) (h12 : b.length < 12)
    (ht : b[3] = PushData ∨ b[3] = PullData ∨ b[3] = TxAck) :
    (Packet.UnmarshalBinary J p b).2
      = some (Error.New "Packet is not long enough to contain the gateway EUI") ∧
    (Packet.UnmarshalBinary J p b).2 ≠ none ∧
    (Packet.UnmarshalBinary J p b).2 ≠ some Error.EOF := by
  obtain ⟨v, t0, t1, ty, rest, rfl⟩ := exists_cons4 b h4
  have hty : PacketType.HasGatewayEUI ty = true := by
    simpa [PacketType.HasGatewayEUI] using ht
  have hl : rest.length < 8 := by simp only [List.length_cons] at h12; omega
  simp [unmarshal_cons, hty, hl]

/-- C8, at the 11-byte PullData buffer 02 AB CD 02 followed by 7 identity bytes. -/
theorem UnmarshalBinary_short_identity_witness :
    (Packet.UnmarshalBinary rawJSON samplePushData [2, 0xAB, 0xCD, 2, 1, 2, 3, 4, 5, 6, 7]).2
      = some (Error.New "Packet is not long enough to contain the gateway EUI") ∧
    (Packet.UnmarshalBinary rawJSON samplePushData [2, 0xAB, 0xCD, 2, 1, 2, 3, 4, 5, 6, 7]).2
      ≠ none ∧
    (Packet.UnmarshalBinary rawJSON samplePushData [2, 0xAB, 0xCD, 2, 1, 2, 3, 4, 5, 6, 7]).2
      ≠ some Error.EOF :=
  UnmarshalBinary_short_identity rawJSON samplePushData [2, 0xAB, 0xCD, 2, 1, 2, 3, 4, 5, 6, 7]
    (by decide) (by decide) (by decide)

/-- C9: the protocol version is read, not validated. On every buffer `b` of at least 4
bytes, replacing `b[0]` by any byte `v` leaves the error of `UnmarshalBinary` (so, whether
it succeeds) unchanged and makes `v` the decoded version; and the decoded version is
`b[0]`, the token is `b[1], b[2]` and the type is `b[3]`, whether or not the rest of the
buffer decodes. -/
theorem UnmarshalBinary_version {D A C : Type} (J : JSON D) (p : Packet D A C)
    (b : List Byte) (h4 : 4 ≤ b.length) :
    (∀ v : Byte, (Packet.UnmarshalBinary J p (b.set 0 v)).2 = (Packet.UnmarshalBinary J p b).2) ∧
    (∀ v : Byte, (Packet.UnmarshalBinary J p (b.set 0 v)).1.ProtocolVersion = v) ∧
    (Packet.UnmarshalBinary J p b).1.ProtocolVersion = b[0] ∧
    (Packet.UnmarshalBinary J p b).1.Token.val = [b[1], b[2]] ∧
    (Packet.UnmarshalBinary J p b).1.PacketType = b[3] := by
  obtain ⟨v, t0, t1, ty, rest, rfl⟩ := exists_cons4 b h4
  simp only [List.set_cons_zero, unmarshal_cons, Packet.withPayload, Packet.withHeader,
    List.getElem_cons_zero, List.getElem_cons_succ]
  refine ⟨?_, ?_, ?_, ?_, ?_⟩
  · intro w; split_ifs <;> rfl
  · intro w; split_ifs <;> rfl
  all_goals split_ifs <;> rfl

/-- C9, at a 12-byte PullData buffer whose version byte is 7, with 1 as the other
version. -/
theorem UnmarshalBinary_version_witness :
    (Packet.UnmarshalBinary rawJSON samplePushData
        ([7, 0xAB, 0xCD, 2, 1, 2, 3, 4, 5, 6, 7, 8].set 0 1)).2
      = (Packet.UnmarshalBinary rawJSON samplePushData
        [7, 0xAB, 0xCD, 2, 1, 2, 3, 4, 5, 6, 7, 8]).2 ∧
    (Packet.UnmarshalBinary rawJSON samplePushData
        ([7, 0xAB, 0xCD, 2, 1, 2, 3, 4, 5, 6, 7, 8].set 0 1)).1.ProtocolVersion = 1 ∧
    (Packet.UnmarshalBinary rawJSON samplePushData
        [7, 0xAB, 0xCD, 2, 1, 2, 3, 4, 5, 6, 7, 8]).1.ProtocolVersion = 7 ∧
    (Packet.UnmarshalBinary rawJSON samplePushData
        [7, 0xAB, 0xCD, 2, 1, 2, 3, 4, 5, 6, 7, 8]).1.Token.val = [0xAB, 0xCD] ∧
    (Packet.UnmarshalBinary rawJSON samplePushData
        [7, 0xAB, 0xCD, 2, 1, 2, 3, 4, 5, 6, 7, 8]).1.PacketType = 2 :=
  have h := UnmarshalBinary_version rawJSON samplePushData
    [7, 0xAB, 0xCD, 2, 1, 2, 3, 4, 5, 6, 7, 8] (by decide)
  ⟨h.1 1, h.2.1 1, h.2.2⟩

/-! ## The packet invariant -/

/-- C6: a packet `q` produced by the codec, either by a successful `UnmarshalBinary` of
any buffer `b` into a zero-valued packet or as the non-nil result of `BuildAck` on any
packet `p`, has a GatewayEUI if and only if its type has one, and a Data if and only if
its type has one. -/
theorem codec_invariant {D A C : Type} (J : JSON D) (b : List Byte) (p q : Packet D A C)
    (h : Packet.UnmarshalBinary J Packet.zero b = (q, none) ∨ p.BuildAck.1 = some q) :
    (q.GatewayEUI ≠ none ↔ PacketType.HasGatewayEUI q.PacketType = true) ∧
    (q.Data ≠ none ↔ PacketType.HasData q.PacketType = true) := by
  rcases h with h | h
  · by_cases h4 : b.length < 4
    · simp [Packet.UnmarshalBinary, h4] at h
    · obtain ⟨v, t0, t1, ty, rest, rfl⟩ := exists_cons4 b (by omega)
      rw [unmarshal_cons] at h
      simp only [Packet.withPayload, Packet.withHeader, Packet.zero] at h
      split_ifs at h with hg hl hd hd <;> simp only [Prod.mk.injEq] at h
      · cases h.2
      · obtain ⟨rfl, _⟩ := h; simp [hg, hd]
      · obtain ⟨rfl, _⟩ := h; simp [hg, hd]
      · obtain ⟨rfl, _⟩ := h; simp [hg, hd]
      · obtain ⟨rfl, _⟩ := h; simp [hg, hd]
  · simp only [Packet.BuildAck, Packet.zero] at h
    have ha : PacketType.HasGatewayEUI PushAck = false ∧ PacketType.HasData PushAck = false ∧
        PacketType.HasGatewayEUI PullAck = false ∧ PacketType.HasData PullAck = false := by
      decide
    split_ifs at h with h0 h2
    · simp only [Option.some.injEq] at h
      subst h
      simp [ha]
    · simp only [Option.some.injEq] at h
      subst h
      simp [ha]

/-- C6, at the decoding of the PullData datagram 02 AB CD 02 01 .. 08 and at the
acknowledgment of a PushData packet. -/
theorem codec_invariant_witness :
    ((samplePullData.GatewayEUI ≠ none ↔
        PacketType.HasGatewayEUI samplePullData.PacketType = true) ∧
      (samplePullData.Data ≠ none ↔ PacketType.HasData samplePullData.PacketType = true)) ∧
    ((sampleAck.GatewayEUI ≠ none ↔ PacketType.HasGatewayEUI sampleAck.PacketType = true) ∧
      (sampleAck.Data ≠ none ↔ PacketType.HasData sampleAck.PacketType = true)) :=
  ⟨codec_invariant rawJSON samplePullDataBytes samplePushData samplePullData
      (Or.inl (by decide)),
    codec_invariant rawJSON [] samplePushData sampleAck (Or.inr (by decide))⟩

/-! ## The PullData acknowledgment scenario -/

/-- C5: every datagram `b` of at least 12 bytes whose type byte is 0x02 decodes, into a
zero-valued packet, without error to the PullData packet of version `b[0]`, token
`b[1], b[2]`, identity `b[4] .. b[11]` and no payload; `BuildAck` of that packet gives,
without error, an acknowledgment whose encoding is exactly the 4 bytes
`b[0], b[1], b[2], 0x04`. -/
theorem PullData_ack_scenario {D : Type} (A C : Type) (J : JSON D) (b : List Byte)
    (h12 : 12 ≤ b.length) (ht : b[3] = 0x02) :
    (Packet.UnmarshalBinary J (Packet.zero : Packet D A C) b).2 = none ∧
    (Packet.UnmarshalBinary J (Packet.zero : Packet D A C) b).1.ProtocolVersion = b[0] ∧
    (Packet.UnmarshalBinary J (Packet.zero : Packet D A C) b).1.Token.val = [b[1], b[2]] ∧
    (Packet.UnmarshalBinary J (Packet.zero : Packet D A C) b).1.PacketType = PullData ∧
    (Packet.UnmarshalBinary J (Packet.zero : Packet D A C) b).1.GatewayEUI.map Subtype.val
      = some [b[4], b[5], b[6], b[7], b[8], b[9], b[10], b[11]] ∧
    (Packet.UnmarshalBinary J (Packet.zero : Packet D A C) b).1.Data = none ∧
    ∃ ack : Packet D A C,
      (Packet.UnmarshalBinary J (Packet.zero : Packet D A C) b).1.BuildAck = (some ack, none) ∧
      ack.MarshalBinary J = ([b[0], b[1], b[2], 0x04], none) := by
  obtain ⟨v, t0, t1, ty, e0, e1, e2, e3, e4, e5, e6, e7, rest, rfl⟩ := exists_cons12 b h12
  simp only [List.getElem_cons_zero, List.getElem_cons_succ] at ht
  subst ht
  have hg : PacketType.HasGatewayEUI (2 : Byte) = true := by decide
  have hd : PacketType.HasData (2 : Byte) = false := by decide
  have hl : ¬ ((e0 :: e1 :: e2 :: e3 :: e4 :: e5 :: e6 :: e7 :: rest).length < 8) := by
    simp only [List.length_cons]; omega
  simp only [unmarshal_cons, hg, hl, if_true, dite_false, Packet.withPayload, Packet.withHeader,
    Packet.zero, hd, List.getElem_cons_zero, List.getElem_cons_succ]
  refine ⟨rfl, rfl, rfl, rfl, rfl, rfl,
    { ProtocolVersion := v, Token := ⟨[t0, t1], rfl⟩, PacketType := PullAck, GatewayEUI := none,
      Data := none, GatewayAddr := none, GatewayConn := none }, rfl, ?_⟩
  have ha : PacketType.HasGatewayEUI PullAck = false ∧ PacketType.HasData PullAck = false := by
    decide
  simp only [marshal_eq, ha]
  rfl

/-- C5, at the datagram of the specification: 02, AB CD, 02 and the identity 01 .. 08
decode to `samplePullData`, whose acknowledgment is sent as 02 AB CD 04. -/
theorem PullData_ack_scenario_witness :
    (Packet.UnmarshalBinary rawJSON (Packet.zero : Packet (List Byte) Unit Unit)
      samplePullDataBytes).2 = none ∧
    (Packet.UnmarshalBinary rawJSON (Packet.zero : Packet (List Byte) Unit Unit)
      samplePullDataBytes).1.ProtocolVersion = 0x02 ∧
    (Packet.UnmarshalBinary rawJSON (Packet.zero : Packet (List Byte) Unit Unit)
      samplePullDataBytes).1.Token.val = [0xAB, 0xCD] ∧
    (Packet.UnmarshalBinary rawJSON (Packet.zero : Packet (List Byte) Unit Unit)
      samplePullDataBytes).1.PacketType = PullData ∧
    (Packet.UnmarshalBinary rawJSON (Packet.zero : Packet (List Byte) Unit Unit)
      samplePullDataBytes).1.GatewayEUI.map Subtype.val = some [1, 2, 3, 4, 5, 6, 7, 8] ∧
    (Packet.UnmarshalBinary rawJSON (Packet.zero : Packet (List Byte) Unit Unit)
      samplePullDataBytes).1.Data = none ∧
    ∃ ack : Packet (List Byte) Unit Unit,
      (Packet.UnmarshalBinary rawJSON (Packet.zero : Packet (List Byte) Unit Unit)
        samplePullDataBytes).1.BuildAck = (some ack, none) ∧
      ack.MarshalBinary rawJSON = ([0x02, 0xAB, 0xCD, 0x04], none) :=
  PullData_ack_scenario Unit Unit rawJSON samplePullDataBytes (by decide) (by decide)

/-! ## Re-encoding a decoded packet -/

/-- C10: for every buffer `b` of at least 4 bytes whose type byte has no payload (PushAck,
PullData, PullAck or a byte above 5) and which `UnmarshalBinary` decodes into a zero-valued
packet without error, `MarshalBinary` of the decoded packet is, without error, the first 12
bytes of `b` when the type is PullData and the first 4 bytes of `b` otherwise; bytes
appended to `b` do not change the result of decoding, so that another buffer decodes to
the same packet. -/
theorem reencode_truncates {D : Type} (A C : Type) (J : JSON D) (b : List Byte)
    (h4 : 4 ≤ b.length)
    (ht : b[3] = PushAck ∨ b[3] = PullData ∨ b[3] = PullAck ∨ 5 < b[3].val)
    (hs : (Packet.UnmarshalBinary J (Packet.zero : Packet D A C) b).2 = none) :
    (Packet.UnmarshalBinary J (Packet.zero : Packet D A C) b).1.MarshalBinary J
      = (if b[3] = PullData then b.take 12 else b.take 4, none) ∧
    (∀ extra : List Byte,
      Packet.UnmarshalBinary J (Packet.zero : Packet D A C) (b ++ extra)
        = Packet.UnmarshalBinary J (Packet.zero : Packet D A C) b) ∧
    (∃ c : List Byte, c ≠ b ∧
      Packet.UnmarshalBinary J (Packet.zero : Packet D A C) c
        = Packet.UnmarshalBinary J (Packet.zero : Packet D A C) b) := by
  have key : (Packet.UnmarshalBinary J (Packet.zero : Packet D A C) b).1.MarshalBinary J
      = (if b[3] = PullData then b.take 12 else b.take 4, none) ∧
    (∀ extra : List Byte,
      Packet.UnmarshalBinary J (Packet.zero : Packet D A C) (b ++ extra)
        = Packet.UnmarshalBinary J (Packet.zero : Packet D A C) b) := by
    obtain ⟨v, t0, t1, ty, rest, rfl⟩ := exists_cons4 b h4
    simp only [List.getElem_cons_zero, List.getElem_cons_succ] at ht ⊢
    have hd : PacketType.HasData ty = false := hasData_of_payloadless ty ht
    simp only [List.cons_append, unmarshal_cons, Packet.withPayload, Packet.withHeader,
      Packet.zero, hd] at hs ⊢
    by_cases h2 : ty = PullData
    · subst h2
      have hg : PacketType.HasGatewayEUI PullData = true := by decide
      simp only [hg, if_true] at hs ⊢
      by_cases hl : rest.length < 8
      · simp [hl] at hs
      · have hl2 : ∀ extra : List Byte, ¬ (rest ++ extra).length < 8 := fun extra => by
          simp only [List.length_append]; omega
        have ht8 : ∀ extra : List Byte, (rest ++ extra).take 8 = rest.take 8 := fun extra =>
          List.take_append_of_le_length (by omega)
        simp [hl, hl2, ht8, marshal_eq, hg, hd]
        intro extra
        have hl3 : ¬ (rest.length + extra.length < 8) := by omega
        simp [hl3]
    · have hg : PacketType.HasGatewayEUI ty = false := hasGatewayEUI_of_payloadless ty ht h2
      simp [hg, h2, marshal_eq, hd]
  refine ⟨key.1, key.2, b ++ [0], ?_, key.2 [0]⟩
  intro h
  have := congrArg List.length h
  simp at this

/-- C10, at the 14-byte buffer made of the PullData datagram 02 AB CD 02 01 .. 08 and
two more bytes: the decoded packet is encoded as the first 12 bytes, and a further byte
changes nothing. -/
theorem reencode_truncates_witness :
    (Packet.UnmarshalBinary rawJSON (Packet.zero : Packet (List Byte) Unit Unit)
        (samplePullDataBytes ++ [9, 9])).1.MarshalBinary rawJSON
      = (samplePullDataBytes, none) ∧
    Packet.UnmarshalBinary rawJSON (Packet.zero : Packet (List Byte) Unit Unit)
        (samplePullDataBytes ++ [9, 9] ++ [0])
      = Packet.UnmarshalBinary rawJSON (Packet.zero : Packet (List Byte) Unit Unit)
        (samplePullDataBytes ++ [9, 9]) :=
  have h := reencode_truncates Unit Unit rawJSON (samplePullDataBytes ++ [9, 9])
    (by decide) (by decide) (by decide)
  ⟨h.1, h.2.1 [0]⟩

/-! ## Round trip -/

/-- C1: for every packet `p`, of any version, token and type byte, that carries a
GatewayEUI exactly when its type has one and a Data exactly when its type has one, and
whose Data (if any) `json.Unmarshal` reads back from the text `json.Marshal` writes,
`UnmarshalBinary` of the bytes of `MarshalBinary(p)` into a zero-valued packet succeeds
and yields the ProtocolVersion, Token, PacketType, GatewayEUI and Data of `p`. -/
theorem roundtrip {D A C : Type} (J : JSON D) (p : Packet D A C)
    (hg : p.GatewayEUI ≠ none ↔ PacketType.HasGatewayEUI p.PacketType = true)
    (hd : p.Data ≠ none ↔ PacketType.HasData p.PacketType = true)
    (hj : ∀ d, p.Data = some d → J.Unmarshal (J.Marshal d).1 J.zero = (d, none)) :
    (Packet.UnmarshalBinary J (Packet.zero : Packet D A C) (p.MarshalBinary J).1).2 = none ∧
    (Packet.UnmarshalBinary J (Packet.zero : Packet D A C) (p.MarshalBinary J).1).1.ProtocolVersion
      = p.ProtocolVersion ∧
    (Packet.UnmarshalBinary J (Packet.zero : Packet D A C) (p.MarshalBinary J).1).1.Token
      = p.Token ∧
    (Packet.UnmarshalBinary J (Packet.zero : Packet D A C) (p.MarshalBinary J).1).1.PacketType
      = p.PacketType ∧
    (Packet.UnmarshalBinary J (Packet.zero : Packet D A C) (p.MarshalBinary J).1).1.GatewayEUI
      = p.GatewayEUI ∧
    (Packet.UnmarshalBinary J (Packet.zero : Packet D A C) (p.MarshalBinary J).1).1.Data
      = p.Data := by
  obtain ⟨pv, ⟨tok, htok⟩, pt, eui, d, a, c⟩ := p
  match tok, htok with
  | [a0, a1], _ =>
    simp only [marshal_eq, List.cons_append, List.nil_append, List.append_assoc, unmarshal_cons,
      Packet.withPayload, Packet.withHeader, Packet.zero] at hg hd hj ⊢
    cases hG : PacketType.HasGatewayEUI pt <;> cases hD : PacketType.HasData pt <;>
      cases eui <;> cases d <;> simp_all
    rename_i val
    exact Subtype.ext (List.take_of_length_le (le_of_eq val.property))

/-- C1, at the PushData packet of version 2, token AB CD, identity 01 .. 08 and a
two-byte payload, with the payload codec that writes the payload as its own text. -/
theorem roundtrip_witness :
    (Packet.UnmarshalBinary rawJSON (Packet.zero : Packet (List Byte) Unit Unit)
      (samplePushData.MarshalBinary rawJSON).1).2 = none ∧
    (Packet.UnmarshalBinary rawJSON (Packet.zero : Packet (List Byte) Unit Unit)
      (samplePushData.MarshalBinary rawJSON).1).1.ProtocolVersion
      = samplePushData.ProtocolVersion ∧
    (Packet.UnmarshalBinary rawJSON (Packet.zero : Packet (List Byte) Unit Unit)
      (samplePushData.MarshalBinary rawJSON).1).1.Token = samplePushData.Token ∧
    (Packet.UnmarshalBinary rawJSON (Packet.zero : Packet (List Byte) Unit Unit)
      (samplePushData.MarshalBinary rawJSON).1).1.PacketType = samplePushData.PacketType ∧
    (Packet.UnmarshalBinary rawJSON (Packet.zero : Packet (List Byte) Unit Unit)
      (samplePushData.MarshalBinary rawJSON).1).1.GatewayEUI = samplePushData.GatewayEUI ∧
    (Packet.UnmarshalBinary rawJSON (Packet.zero : Packet (List Byte) Unit Unit)
      (samplePushData.MarshalBinary rawJSON).1).1.Data = samplePushData.Data :=
  roundtrip rawJSON samplePushData (by decide) (by decide) (fun _ _ => rfl)

end udp
